import Mathlib

/-!
Verification of the fit/transform pipeline contract demonstrated by the
`sklearn_pipelines` notebook.  The notebook itself only calls the external
library's `Pipeline`, `StandardScaler`, `PCA` and `train_test_split`;
those implementations are not part of the repository, so the definitions
below are modelled from the repository's specification of the generic
transformer/estimator/pipeline contract and from the notebook's own
description of each call.
-/

namespace Sklearn

/-- A data row: one sample's numeric feature values. -/
abbrev Row := List ℚ

/-- A feature matrix: a list of rows. -/
abbrev Matrix := List Row

/-- A label vector, aligned row-for-row with a feature matrix. -/
abbrev Labels := List ℚ

/-- Modelled from the spec: the error kinds of the contract — not-fitted
error, shape-mismatch error and configuration error. -/
inductive TError where
  | notFitted
  | shapeMismatch
  | configError
deriving DecidableEq

/-- Column count of a matrix: the length of its first row (0 when empty),
as the shape bookkeeping a transformer records at fit time. -/
def ncols (X : Matrix) : ℕ := (X.head?.map List.length).getD 0

/-- Checks that every row of `X` has exactly `m` entries, i.e. that `X`
has the column count `m` recorded at fit time. -/
def hasCols (X : Matrix) (m : ℕ) : Bool := X.all (fun r => r.length == m)

/-- Modelled from the spec: a transformer implementation — `learn` derives
stored parameters from a training matrix, `applyRow` applies stored
parameters to one row.  The concrete statistics (scaling, projection) are
the external library's; the contract constrains only this interface. -/
structure Transformer (P : Type) where
  learn : Matrix → P
  applyRow : P → Row → Row

/-- Applies a transformer's stored parameters to a whole matrix, row by
row, returning a new matrix. -/
def mApply (t : Transformer P) (p : P) (X : Matrix) : Matrix :=
  X.map (t.applyRow p)

/-- Modelled from the spec: a stateful transformer object.  `fitted` is
`none` before any `fit` call; after `fit` it stores the fit matrix's
column count together with the learned parameters. -/
structure FittedT (P : Type) where
  impl : Transformer P
  fitted : Option (ℕ × P)

/-- A fresh, never-fitted transformer object. -/
def FittedT.init (impl : Transformer P) : FittedT P := ⟨impl, none⟩

/-- Modelled from the spec: `fit(X_train)` learns and stores parameters
from the given matrix only, overwriting any prior state. -/
def FittedT.fit (t : FittedT P) (X : Matrix) : FittedT P :=
  ⟨t.impl, some (ncols X, t.impl.learn X)⟩

/-- Modelled from the spec: `transform(X)` in state-passing form — it
returns the (unchanged) transformer state together with either the new
matrix, a not-fitted error when called before `fit`, or a shape-mismatch
error when the column counts differ. -/
def FittedT.transformS (t : FittedT P) (X : Matrix) :
    FittedT P × Except TError Matrix :=
  match t.fitted with
  | none => (t, .error .notFitted)
  | some (m, p) =>
      (t, if hasCols X m then .ok (mApply t.impl p X) else .error .shapeMismatch)

/-- Modelled from the spec: an estimator implementation — `learnE` derives
stored parameters from a (transformed) training matrix and its labels,
`predictRow` produces one label for one row from stored parameters. -/
structure Estimator (Q : Type) where
  learnE : Matrix → Labels → Q
  predictRow : Q → Row → ℚ

/-- Modelled from the spec: a pipeline — an ordered sequence of
transformer steps followed by one final estimator, together with the
fitted state: one learned parameter block per transformer (empty before
`fit`) and the estimator's learned parameters (`none` before `fit`). -/
structure Pipeline (P Q : Type) where
  transformers : List (Transformer P)
  final : Estimator Q
  tParams : List P
  eParam : Option Q

/-- A freshly constructed pipeline, before any `fit` call. -/
def Pipeline.init (ts : List (Transformer P)) (e : Estimator Q) : Pipeline P Q :=
  ⟨ts, e, [], none⟩

/-- Modelled from the spec: the transformer phase of `fit(X, y)` — for
each transformer step in order, call `fit` (learning parameters from the
running matrix) and then replace the running matrix with that step's
`transform` output.  Returns the learned parameters, in step order,
together with the fully transformed matrix. -/
def fitSteps : List (Transformer P) → Matrix → List P × Matrix
  | [], X => ([], X)
  | t :: ts, X =>
      let p := t.learn X
      let rest := fitSteps ts (mApply t p X)
      (p :: rest.1, rest.2)

/-- Modelled from the spec: `fit(X, y)` runs the transformer phase and
then fits the final step on the fully transformed matrix against `y`,
storing all learned parameters in the pipeline. -/
def Pipeline.fit (pl : Pipeline P Q) (X : Matrix) (y : Labels) : Pipeline P Q :=
  let r := fitSteps pl.transformers X
  { pl with tParams := r.1, eParam := some (pl.final.learnE r.2 y) }

/-- Runs the transformer steps in order over the input matrix, each
applying only its stored parameters; no learning happens here. -/
def chainApply : List (Transformer P) → List P → Matrix → Matrix
  | t :: ts, p :: ps, X => chainApply ts ps (mApply t p X)
  | _, _, X => X

/-- State-passing version of the prediction-time transformer chain: each
step receives its stored parameters and hands back the parameters it
retains alongside its output matrix.  Per the spec, `transform` leaves
the stored parameters unchanged. -/
def chainApplyS : List (Transformer P) → List P → Matrix → List P × Matrix
  | t :: ts, p :: ps, X =>
      let rest := chainApplyS ts ps (mApply t p X)
      (p :: rest.1, rest.2)
  | _, ps, X => (ps, X)

/-- Modelled from the spec: `predict(X)` in state-passing form — fails
with a not-fitted error before `fit`; otherwise runs each transformer
step in order calling only `transform` with the stored parameters, then
returns the final step's per-row predictions on the result, alongside
the pipeline state that survives the call. -/
def Pipeline.predictS (pl : Pipeline P Q) (X : Matrix) :
    Pipeline P Q × Except TError Labels :=
  match pl.eParam with
  | none => (pl, .error .notFitted)
  | some q =>
      let r := chainApplyS pl.transformers pl.tParams X
      ({ pl with tParams := r.1 }, .ok (r.2.map (pl.final.predictRow q)))

/-- The prediction result of `predict(X)`. -/
def Pipeline.predict (pl : Pipeline P Q) (X : Matrix) : Except TError Labels :=
  (pl.predictS X).2

/-- The state-passing transformer chain retains exactly the stored
parameters and computes the same output matrix as the parameter-reading
chain. -/
lemma chainApplyS_eq (ts : List (Transformer P)) (ps : List P) (X : Matrix) :
    chainApplyS ts ps X = (ps, chainApply ts ps X) := by
  induction ts generalizing ps X with
  | nil => cases ps <;> simp [chainApplyS, chainApply]
  | cons t ts ih => cases ps <;> simp [chainApplyS, chainApply, ih]

/-- Row-wise application preserves the row count. -/
lemma mApply_length (t : Transformer P) (p : P) (X : Matrix) :
    (mApply t p X).length = X.length := by
  simp [mApply]

/-- The prediction-time transformer chain preserves the row count. -/
lemma chainApply_length (ts : List (Transformer P)) (ps : List P) (X : Matrix) :
    (chainApply ts ps X).length = X.length := by
  induction ts generalizing ps X with
  | nil => cases ps <;> simp [chainApply]
  | cons t ts ih =>
      cases ps with
      | nil => simp [chainApply]
      | cons p ps => simp [chainApply, ih, mApply_length]

/-- Modelled from the spec: the capabilities a candidate pipeline step
declares — whether it supports `fit`, `transform` and `predict`. -/
structure StepCaps where
  hasFit : Bool
  hasTransform : Bool
  hasPredict : Bool
deriving DecidableEq

/-- Modelled from the spec: the construction-time step check — every
non-final step must support `transform`, and the final step must support
`predict` or `fit`. -/
def stepsOk (steps : List StepCaps) : Bool :=
  steps.dropLast.all (fun s => s.hasTransform)
    && (match steps.getLast? with
        | none => true
        | some s => s.hasPredict || s.hasFit)

/-- Modelled from the spec: pipeline construction validates the step
sequence immediately — it receives no data, and returns a configuration
error when any non-final step lacks `transform` or the final step lacks
both `predict` and `fit`. -/
def mkPipelineSteps (steps : List StepCaps) : Except TError (List StepCaps) :=
  if stepsOk steps then .ok steps else .error .configError

/-- Mean of a column of values (0 for the empty column, as the sum over
an empty list divided by zero length). -/
def colMean (c : List ℚ) : ℚ := c.sum / c.length

/-- Population variance of a column of values: the mean of the squared
deviations from the column mean. -/
def colVar (c : List ℚ) : ℚ :=
  (c.map (fun x => (x - colMean c) ^ 2)).sum / c.length

/-- Modelled from the spec: standardization of one column — subtract the
stored column mean `μ` and divide by the stored column standard
deviation `s`, entry by entry. -/
def standardizeCol (μ s : ℚ) (c : List ℚ) : List ℚ :=
  c.map (fun x => (x - μ) / s)

/-- Modelled from the spec: the splitter's index partition — after the
seed-driven shuffle of the row indices, the first `t` shuffled indices
become the test set and the rest the train set. -/
def splitIdx (shuffled : List ℕ) (t : ℕ) : List ℕ × List ℕ :=
  (shuffled.drop t, shuffled.take t)

/-- Modelled from the spec: the number of test rows for a split fraction
`frac` of `n` rows, rounding up. -/
def testCount (n : ℕ) (frac : ℚ) : ℕ := (frac * n).ceil.toNat

/-- Modelled from the spec: `train_test_split` over the shuffled row
indices, returning the (train, test) index lists for the given split
fraction. -/
def trainTestSplit (shuffled : List ℕ) (frac : ℚ) : List ℕ × List ℕ :=
  splitIdx shuffled (testCount shuffled.length frac)

/-- Dot product of two rows. -/
def dot (a b : Row) : ℚ := (List.zipWith (fun x y => x * y) a b).sum

/-- Modelled from the spec: the projection basis a dimensionality
reducer learns — `k` component vectors over `m` input columns.  The
actual eigenbasis computation is the external library's algorithm and is
not in the repository; only the basis shape is modelled, via coordinate
vectors. -/
def pcaBasis (k m : ℕ) : Matrix :=
  (List.range k).map (fun i => (List.range m).map (fun j => if j = i then (1 : ℚ) else 0))

/-- Modelled from the spec: a projection transformer configured with a
component count, holding its learned basis once fitted. -/
structure PCAModel where
  nComponents : ℕ
  components : Option Matrix

/-- A fresh projection transformer with `n_components = k`. -/
def pcaInit (k : ℕ) : PCAModel := ⟨k, none⟩

/-- Modelled from the spec: fitting learns a projection basis of
`nComponents` vectors over the fit matrix's columns. -/
def PCAModel.fit (pc : PCAModel) (X : Matrix) : PCAModel :=
  ⟨pc.nComponents, some (pcaBasis pc.nComponents (ncols X))⟩

/-- Modelled from the spec: transforming projects each row onto each
learned component; `none` when called before `fit`. -/
def PCAModel.transform (pc : PCAModel) (X : Matrix) : Option Matrix :=
  pc.components.map (fun cs => X.map (fun r => cs.map (fun c => dot c r)))

/-- Modelled from the spec: Python basic slicing `a[:stop]`, which clamps
`stop` to the sequence's length instead of failing when it is larger. -/
def pySlice (stop : ℕ) (l : List α) : List α := l.take stop

/-- The step check fails exactly when some non-final step lacks
`transform` or the final step lacks both `predict` and `fit`. -/
lemma stepsOk_false_iff (steps : List StepCaps) :
    stepsOk steps = false ↔
      ((∃ s ∈ steps.dropLast, s.hasTransform = false)
        ∨ (∃ s, steps.getLast? = some s ∧ s.hasPredict = false ∧ s.hasFit = false)) := by
  rcases h : steps.getLast? with _ | s
  · simp [stepsOk, h, Bool.and_eq_false_iff, List.all_eq_false, Bool.or_eq_false_iff,
      Bool.not_eq_true]
  · simp [stepsOk, h, Bool.and_eq_false_iff, List.all_eq_false, Bool.or_eq_false_iff,
      Bool.not_eq_true, Option.some.injEq]
    constructor
    · intro himp
      by_cases hall : ∀ x ∈ steps.dropLast, x.hasTransform = true
      · exact Or.inr (himp hall)
      · push_neg at hall
        obtain ⟨x, hx, hxf⟩ := hall
        exact Or.inl ⟨x, hx, by simpa using hxf⟩
    · rintro (⟨x, hx, hxf⟩ | hq)
      · intro hall
        simp [hall x hx] at hxf
      · exact fun _ => hq

/-- C3: pipeline construction — which receives only the step sequence,
no data — fails with a configuration error exactly when some non-final
step lacks `transform` or the final step lacks both `predict` and
`fit`. -/
theorem pipeline_construction_validation (steps : List StepCaps) :
    mkPipelineSteps steps = .error .configError ↔
      ((∃ s ∈ steps.dropLast, s.hasTransform = false)
        ∨ (∃ s, steps.getLast? = some s ∧ s.hasPredict = false ∧ s.hasFit = false)) := by
  rw [← stepsOk_false_iff]
  cases hok : stepsOk steps <;> simp [mkPipelineSteps, hok]

/-- C1: `fit(X, y)` runs each transformer step in order, calling its
`fit` and then replacing the running matrix with its `transform` output
(the parameter list and the final matrix are exactly those of
`fitSteps`), and fits the final step on the fully transformed matrix
against `y`; `predict(Xnew)` runs only the transform chain with the
parameters learned during that `fit` call and returns the final step's
predictions on the result. -/
theorem pipeline_fit_predict_composition (pl : Pipeline P Q) (X Xnew : Matrix) (y : Labels) :
    (pl.fit X y).tParams = (fitSteps pl.transformers X).1
    ∧ (pl.fit X y).eParam = some (pl.final.learnE (fitSteps pl.transformers X).2 y)
    ∧ (pl.fit X y).predict Xnew =
        .ok ((chainApply pl.transformers (fitSteps pl.transformers X).1 Xnew).map
              (pl.final.predictRow (pl.final.learnE (fitSteps pl.transformers X).2 y))) := by
  refine ⟨rfl, rfl, ?_⟩
  simp [Pipeline.predict, Pipeline.predictS, Pipeline.fit, chainApplyS_eq]

/-- C2: after one `fit` call, `predict` leaves every step's learned
parameters untouched (the pipeline state returned by the state-passing
`predict` is the fitted pipeline itself), so a second `predict` on the
same input returns the identical result. -/
theorem predict_no_refit (pl : Pipeline P Q) (X : Matrix) (y : Labels) (Xnew : Matrix) :
    ((pl.fit X y).predictS Xnew).1 = pl.fit X y
    ∧ ((pl.fit X y).predictS Xnew).2 = (((pl.fit X y).predictS Xnew).1.predictS Xnew).2 := by
  have h1 : ((pl.fit X y).predictS Xnew).1 = pl.fit X y := by
    simp [Pipeline.predictS, Pipeline.fit, chainApplyS_eq]
  exact ⟨h1, by rw [h1]⟩

/-- C4: a transformer's `transform` fails with a not-fitted error before
`fit`; after `fit` it succeeds exactly when the input's column count
matches the fit matrix's, failing with a shape-mismatch error otherwise,
and its output has the same row count as the input. -/
theorem transformer_contract (impl : Transformer P) (Xtr X : Matrix) :
    ((FittedT.init impl).transformS X).2 = .error .notFitted
    ∧ (((FittedT.init impl).fit Xtr).transformS X).2 =
        (if hasCols X (ncols Xtr) then .ok (mApply impl (impl.learn Xtr) X)
         else .error .shapeMismatch)
    ∧ (mApply impl (impl.learn Xtr) X).length = X.length := by
  exact ⟨rfl, rfl, mApply_length impl (impl.learn Xtr) X⟩

/-- C6: `transform` is pure — the state-passing `transform` returns the
transformer's stored parameters unchanged, so applying it twice to the
same input yields identical output. -/
theorem transform_pure (t : FittedT P) (X : Matrix) :
    (t.transformS X).1 = t
    ∧ (t.transformS X).2 = ((t.transformS X).1.transformS X).2 := by
  have h1 : (t.transformS X).1 = t := by
    rcases hf : t.fitted with _ | ⟨m, p⟩ <;> simp [FittedT.transformS, hf]
  exact ⟨h1, by rw [h1]⟩

/-- C7: `predict` on a freshly constructed pipeline fails with a
not-fitted error; after `fit`, `predict` succeeds and returns exactly
one label per row of its input. -/
theorem predict_requires_fit (ts : List (Transformer P)) (e : Estimator Q)
    (X Xnew : Matrix) (y : Labels) :
    (Pipeline.init ts e).predict X = .error .notFitted
    ∧ ∃ l, ((Pipeline.init ts e).fit X y).predict Xnew = .ok l
        ∧ l.length = Xnew.length := by
  constructor
  · rfl
  · refine ⟨(chainApply ts (fitSteps ts X).1 Xnew).map
        (e.predictRow (e.learnE (fitSteps ts X).2 y)), ?_, ?_⟩
    · simp [Pipeline.predict, Pipeline.predictS, Pipeline.fit, Pipeline.init, chainApplyS_eq]
    · simp [chainApply_length]

/-- Splitting a permutation of the row indices at any cut point yields
two parts whose lengths sum to the dataset size, which are disjoint, and
which together cover exactly the row indices. -/
lemma splitIdx_partition (shuffled : List ℕ) (n t : ℕ)
    (h : shuffled.Perm (List.range n)) :
    (splitIdx shuffled t).1.length + (splitIdx shuffled t).2.length = n
    ∧ List.Disjoint (splitIdx shuffled t).1 (splitIdx shuffled t).2
    ∧ ∀ i : ℕ, ((i ∈ (splitIdx shuffled t).1 ∨ i ∈ (splitIdx shuffled t).2) ↔ i < n) := by
  have hlen : shuffled.length = n := h.length_eq.trans (List.length_range n)
  have hnd : shuffled.Nodup := h.symm.nodup (List.nodup_range n)
  refine ⟨?_, ?_, ?_⟩
  · simp only [splitIdx, List.length_drop, List.length_take]
    omega
  · exact (List.disjoint_take_drop hnd (Nat.le_refl t)).symm
  · intro i
    have hmem : i ∈ shuffled ↔ i < n := by
      rw [h.mem_iff]
      exact List.mem_range
    rw [← hmem]
    conv_rhs => rw [← List.take_append_drop t shuffled]
    simp only [splitIdx, List.mem_append]
    exact or_comm

/-- C5: for every dataset size and every seed-driven shuffle of its row
indices, the `train_test_split` partition has train and test sizes
summing exactly to the dataset size, the two index lists are disjoint,
and together they cover exactly the set of all row indices. -/
theorem train_test_split_partition (n : ℕ) (shuffled : List ℕ) (frac : ℚ)
    (h : shuffled.Perm (List.range n)) :
    (trainTestSplit shuffled frac).1.length + (trainTestSplit shuffled frac).2.length = n
    ∧ List.Disjoint (trainTestSplit shuffled frac).1 (trainTestSplit shuffled frac).2
    ∧ ∀ i : ℕ, ((i ∈ (trainTestSplit shuffled frac).1
        ∨ i ∈ (trainTestSplit shuffled frac).2) ↔ i < n) :=
  splitIdx_partition shuffled n (testCount shuffled.length frac) h

/-- Concrete instance of `train_test_split_partition`: splitting the four
row indices 0..3 with test fraction 1/4. -/
theorem train_test_split_partition_witness :
    (trainTestSplit (List.range 4) (1/4)).1.length
        + (trainTestSplit (List.range 4) (1/4)).2.length = 4
    ∧ List.Disjoint (trainTestSplit (List.range 4) (1/4)).1
        (trainTestSplit (List.range 4) (1/4)).2
    ∧ ∀ i : ℕ, ((i ∈ (trainTestSplit (List.range 4) (1/4)).1
        ∨ i ∈ (trainTestSplit (List.range 4) (1/4)).2) ↔ i < 4) :=
  train_test_split_partition 4 (List.range 4) (1/4) (List.Perm.refl _)

/-- Subtracting a constant from every entry subtracts `length * μ` from
the sum. -/
lemma sum_map_sub (c : List ℚ) (μ : ℚ) :
    (c.map (fun x => x - μ)).sum = c.sum - c.length * μ := by
  induction c with
  | nil => simp
  | cons a t ih =>
      simp only [List.map_cons, List.sum_cons, ih, List.length_cons]
      push_cast
      ring

/-- Dividing every entry by a constant divides the sum by it. -/
lemma sum_map_div (c : List ℚ) (s : ℚ) :
    (c.map (fun x => x / s)).sum = c.sum / s := by
  induction c with
  | nil => simp
  | cons a t ih => simp [ih, add_div]

/-- Summing the squares of scaled deviations factors out the squared
scale. -/
lemma sum_map_sqdiv (c : List ℚ) (μ s : ℚ) :
    (c.map (fun x => ((x - μ) / s) ^ 2)).sum
      = (c.map (fun x => (x - μ) ^ 2)).sum / s ^ 2 := by
  have h1 : c.map (fun x => ((x - μ) / s) ^ 2)
      = (c.map (fun x => (x - μ) ^ 2)).map (fun y => y / s ^ 2) := by
    simp [List.map_map, Function.comp, div_pow]
  rw [h1, sum_map_div]

/-- Standardizing a nonempty column around its own mean yields a column
of mean zero, whatever the scale. -/
lemma standardize_mean (c : List ℚ) (s : ℚ) (hc : c ≠ []) :
    colMean (standardizeCol (colMean c) s c) = 0 := by
  have hn : (c.length : ℚ) ≠ 0 :=
    Nat.cast_ne_zero.mpr (fun h0 => hc (List.length_eq_zero.mp h0))
  have hmap : standardizeCol (colMean c) s c
      = (c.map (fun x => x - colMean c)).map (fun y => y / s) := by
    simp [standardizeCol, List.map_map, Function.comp]
  have hcm : (c.length : ℚ) * colMean c = c.sum := by
    rw [colMean, mul_comm, div_mul_cancel₀ _ hn]
  have hsum : (standardizeCol (colMean c) s c).sum = 0 := by
    rw [hmap, sum_map_div, sum_map_sub, hcm, sub_self, zero_div]
  rw [colMean, hsum, zero_div]

/-- C8 (amended): standardizing a nonempty column whose standard
deviation `s` is nonzero (`s ^ 2` equals the column's variance) yields a
column with mean exactly 0 and variance exactly 1 — per-column over the
training matrix, this is the standardization postcondition. -/
theorem standardize_mean_var (c : List ℚ) (s : ℚ) (hc : c ≠ []) (hs : s ≠ 0)
    (hvar : s ^ 2 = colVar c) :
    colMean (standardizeCol (colMean c) s c) = 0
    ∧ colVar (standardizeCol (colMean c) s c) = 1 := by
  refine ⟨standardize_mean c s hc, ?_⟩
  have hn : (c.length : ℚ) ≠ 0 :=
    Nat.cast_ne_zero.mpr (fun h0 => hc (List.length_eq_zero.mp h0))
  have hS : (c.map (fun x => (x - colMean c) ^ 2)).sum ≠ 0 := by
    intro h0
    apply hs
    have hv0 : colVar c = 0 := by rw [colVar, h0, zero_div]
    have hs2 : s ^ 2 = 0 := by rw [hvar, hv0]
    exact sq_eq_zero_iff.mp hs2
  have hm2 : colMean (c.map (fun x => (x - colMean c) / s)) = 0 := by
    simpa [standardizeCol] using standardize_mean c s hc
  simp only [colVar, standardizeCol, List.map_map, List.length_map, hm2, sub_zero]
  have h1 : c.map ((fun x => x ^ 2) ∘ fun x => (x - colMean c) / s)
      = c.map (fun x => ((x - colMean c) / s) ^ 2) := by
    simp [Function.comp]
  rw [h1, sum_map_sqdiv, hvar, colVar]
  field_simp

/-- C8 counterexample to the claim as stated: on the constant training
column `[5, 5]` the learned standard deviation is 0 (its square is the
column's variance), and the standardized column has standard deviation
0, not approximately 1. -/
theorem standardize_const_counterexample :
    ((0 : ℚ) ^ 2 = colVar [5, 5])
    ∧ colVar (standardizeCol (colMean [5, 5]) 0 [5, 5]) = 0
    ∧ ((0 : ℚ) ≠ 1) := by
  refine ⟨?_, ?_, by norm_num⟩
  · norm_num [colVar, colMean]
  · norm_num [colVar, colMean, standardizeCol]

/-- Concrete instance of `standardize_mean_var`: the column `[0, 2]` has
mean 1 and variance 1, and standardizes to mean 0 and variance 1. -/
theorem standardize_mean_var_witness :
    (([0, 2] : List ℚ) ≠ []) ∧ ((1 : ℚ) ≠ 0) ∧ ((1 : ℚ) ^ 2 = colVar [0, 2])
    ∧ (colMean (standardizeCol (colMean [0, 2]) 1 [0, 2]) = 0
        ∧ colVar (standardizeCol (colMean [0, 2]) 1 [0, 2]) = 1) :=
  ⟨by simp, by norm_num, by norm_num [colVar, colMean],
    standardize_mean_var [0, 2] 1 (by simp) (by norm_num) (by norm_num [colVar, colMean])⟩

/-- C9: a projection transformer constructed with `n_components = k` and
fit on a matrix with at least `k` columns maps every matrix with that
column count to a matrix with the same row count and exactly `k` columns
in every row. -/
theorem pca_transform_shape (k : ℕ) (Xtr X : Matrix)
    (hk : k ≤ ncols Xtr) (hX : hasCols X (ncols Xtr) = true) :
    ∃ Y, ((pcaInit k).fit Xtr).transform X = some Y
      ∧ Y.length = X.length ∧ ∀ r ∈ Y, r.length = k := by
  refine ⟨X.map (fun r => (pcaBasis k (ncols Xtr)).map (fun c => dot c r)),
    rfl, by simp, ?_⟩
  intro r hr
  simp only [List.mem_map] at hr
  obtain ⟨row, _, rfl⟩ := hr
  simp [pcaBasis]

/-- Concrete instance of `pca_transform_shape`: one component over a
two-column fit matrix. -/
theorem pca_transform_shape_witness :
    1 ≤ ncols [[(1 : ℚ), 2]]
    ∧ hasCols [[(3 : ℚ), 4]] (ncols [[(1 : ℚ), 2]]) = true
    ∧ ∃ Y, ((pcaInit 1).fit [[(1 : ℚ), 2]]).transform [[(3 : ℚ), 4]] = some Y
        ∧ Y.length = ([[(3 : ℚ), 4]] : Matrix).length ∧ ∀ r ∈ Y, r.length = 1 :=
  ⟨by simp [ncols], by simp [hasCols, ncols],
    pca_transform_shape 1 [[(1 : ℚ), 2]] [[(3 : ℚ), 4]] (by simp [ncols])
      (by simp [hasCols, ncols])⟩

/-- C10: slicing with an end index at or past the length is total and
returns the whole list, so slicing a row-aligned feature matrix and
label vector with an oversized end index (as with `mnist_X[:100000]` on
70000 rows) leaves the full, still-aligned dataset. -/
theorem slice_past_length_total (X : Matrix) (y : Labels) (stop : ℕ)
    (hX : X.length ≤ stop) (hy : y.length = X.length) :
    pySlice stop X = X ∧ pySlice stop y = y
    ∧ (pySlice stop X).length = (pySlice stop y).length := by
  have h1 : pySlice stop X = X := List.take_of_length_le hX
  have h2 : pySlice stop y = y := List.take_of_length_le (by omega)
  exact ⟨h1, h2, by rw [h1, h2, hy]⟩

/-- Concrete instance of `slice_past_length_total`: a two-row dataset
sliced with end index 5. -/
theorem slice_past_length_total_witness :
    ([[(1 : ℚ)], [(2 : ℚ)]] : Matrix).length ≤ 5
    ∧ ([(3 : ℚ), 4] : Labels).length = ([[(1 : ℚ)], [(2 : ℚ)]] : Matrix).length
    ∧ (pySlice 5 ([[(1 : ℚ)], [(2 : ℚ)]] : Matrix) = [[(1 : ℚ)], [(2 : ℚ)]]
        ∧ pySlice 5 ([(3 : ℚ), 4] : Labels) = [(3 : ℚ), 4]
        ∧ (pySlice 5 ([[(1 : ℚ)], [(2 : ℚ)]] : Matrix)).length
            = (pySlice 5 ([(3 : ℚ), 4] : Labels)).length) :=
  ⟨by simp, by simp,
    slice_past_length_total [[(1 : ℚ)], [(2 : ℚ)]] [(3 : ℚ), 4] 5 (by simp) (by simp)⟩

end Sklearn
